import Mathlib

/-!
Shallow embedding of the `fundingmonitor` aggregation-and-log-store core:
the aggregator (`internal/domain/entity.go`, usecase chunk), the file-based
time-series log (`internal/infrastructure/file_logger.go`) and the periodic
scheduler loop (`main_clean.go`, `startBackgroundLogging`).

Modelling conventions:
* Go `float64` metric fields are modelled as `ℚ`; `fmt`'s `%.Nf` is modelled
  as fixed-point decimal rendering (exact for values representable in N
  decimal places, which is all the concrete inputs used here).
* Go `error` values are modelled by small inductive error types.
* The file system is an explicit record of directories, file contents and
  a set of paths whose reads fail with a non-not-exist I/O error; paths are
  lists of components (`filepath.Join` is list append, separators never
  occur inside components in this code base).
* Strings are Lean `String`s; all data involved is ASCII, so Go's byte
  indexing coincides with character indexing.
-/

namespace FundingMonitor

/-- `domain.FundingRate` (entity.go): the fields the log writer uses.
`NextFundingTime`, `Timestamp` and `LastFundingRate` are carried by the Go
struct but never read by the code under verification, so they are omitted. -/
structure FundingRate where
  symbol : String
  exchange : String
  fundingRate : ℚ
  markPrice : ℚ
  indexPrice : ℚ
  deriving Repr, DecidableEq

/-- `domain.FundingRateHistory` (repository.go). -/
structure FundingRateHistory where
  timestamp : Int
  fundingRate : ℚ
  deriving Repr, DecidableEq

/-- `domain.LogFile` (repository.go): descriptor returned by `GetAllLogs`.
`Modified` (a `time.Time` from file metadata) is omitted: no claim
constrains it beyond being copied from metadata. -/
structure LogFile where
  symbol : String
  date : String
  path : List String
  size : Int
  deriving Repr, DecidableEq

/-- Go `error` values crossing the aggregator boundary: the sentinel errors
of `internal/domain` (unnamed/part_005) plus arbitrary fetch errors coming
from an exchange client. -/
inductive Err where
  | exchangeNotFound
  | logFileNotFound
  | fetchFailed (msg : String)
  deriving Repr, DecidableEq

/-- Result of one exchange's `GetFundingRates()` call (the
`domain.ExchangeRepository` contract). -/
abbrev FetchResult := Except Err (List FundingRate)

/-- The aggregator's registered sources: `MultiExchangeUseCase.exchanges`
is a Go `map[string]ExchangeRepository`; modelled as an association list
with at most one entry per name (Go maps cannot hold duplicates), where the
value is the outcome the source's fetch produces this round. -/
abbrev Exchanges := List (String × FetchResult)

/-- `rates[i].Exchange = name` in `GetAllFundingRates`'s success branch. -/
def setExchange (name : String) (r : FundingRate) : FundingRate :=
  { r with exchange := name }

/-- `MultiExchangeUseCase.GetAllFundingRates` (entity.go, usecase chunk
lines 60–79): iterate all registered exchanges, skip any whose fetch
errors, stamp the registry name onto each successful rate, concatenate,
and always return a nil error. -/
def getAllFundingRates (exs : Exchanges) : Except Err (List FundingRate) :=
  .ok (exs.foldl
    (fun acc e =>
      match e.2 with
      | .error _ => acc
      | .ok rs => acc ++ rs.map (setExchange e.1))
    [])

/-- Spec-shaped description of the claim C3 conclusion: the union (in
registry order) of the successful sources' observations, each stamped with
its source's registry name. -/
def successfulObservations (exs : Exchanges) : List FundingRate :=
  (exs.filterMap
    (fun e =>
      match e.2 with
      | .error _ => none
      | .ok rs => some (rs.map (setExchange e.1)))).flatten

/-- Go map lookup `m.exchanges[exchangeName]`. -/
def lookupExchange (exs : Exchanges) (name : String) : Option FetchResult :=
  (exs.find? (fun e => e.1 = name)).map Prod.snd

/-- `MultiExchangeUseCase.GetExchangeFundingRates` (entity.go, usecase
chunk lines 82–89): `ErrExchangeNotFound` for an unregistered name,
otherwise the source's own result, error included. -/
def getExchangeFundingRates (exs : Exchanges) (name : String) :
    Except Err (List FundingRate) :=
  match lookupExchange exs name with
  | none => .error .exchangeNotFound
  | some res => res

private lemma getAll_aux (exs : Exchanges) :
    ∀ acc : List FundingRate,
      exs.foldl
        (fun acc e =>
          match e.2 with
          | .error _ => acc
          | .ok rs => acc ++ rs.map (setExchange e.1))
        acc = acc ++ successfulObservations exs := by
  induction exs with
  | nil => intro acc; simp [successfulObservations]
  | cons e rest ih =>
    intro acc
    cases h : e.2 with
    | error err =>
      simp only [List.foldl_cons, h]
      rw [ih]
      simp [successfulObservations, h]
    | ok rs =>
      simp only [List.foldl_cons, h]
      rw [ih]
      simp [successfulObservations, h, List.append_assoc]

/-- C3: for every set of registered sources, however many of them fail,
`GetAllFundingRates` returns the union of the successful sources'
observations together with a nil error; no source's failure is propagated,
and an all-failed round yields an empty collection rather than an error. -/
theorem getAllFundingRates_isolates_failures (exs : Exchanges) :
    getAllFundingRates exs = .ok (successfulObservations exs) := by
  unfold getAllFundingRates
  rw [getAll_aux exs []]
  simp

/-! ### Calendar dates and Go `time` formatting

`LogFundingRates` formats `time.Now()` with layouts `"02-01-2006"` (the
day-file name) and `"2006-01-02 15:04:05"` (the line timestamp);
`GetSymbolLogs` parses layout `"2006-01-02"` and `GetHistoricalFundingRates`
parses `"2006-01-02 15:04:05"`. All four layouts use fixed-width zero-padded
numeric fields, embedded here over `List Char`. -/

/-- ASCII digit character for `n ≤ 9`. -/
def dchar (n : Nat) : Char := Char.ofNat (48 + n)

/-- Numeric value of an ASCII digit, as Go's `getnum` reads one char. -/
def dval? (c : Char) : Option Nat :=
  if '0' ≤ c ∧ c ≤ '9' then some (c.toNat - 48) else none

/-- Two-digit zero-padded field (Go layout tokens `01`, `02`, `15`, `04`,
`05`); faithful for values below 100, which covers every field using it. -/
def pad2 (n : Nat) : List Char := [dchar (n / 10), dchar (n % 10)]

/-- Four-digit zero-padded year (Go layout token `2006`); faithful for
years up to 9999. -/
def pad4 (n : Nat) : List Char :=
  [dchar (n / 1000), dchar (n / 100 % 10), dchar (n / 10 % 10), dchar (n % 10)]

/-- Go `time` leap-year rule. -/
def isLeap (y : Nat) : Bool := (y % 4 == 0 && y % 100 != 0) || y % 400 == 0

/-- Days in a month, as Go's date validation uses it. -/
def daysInMonth (y m : Nat) : Nat :=
  if m = 2 then (if isLeap y then 29 else 28)
  else if m = 4 ∨ m = 6 ∨ m = 9 ∨ m = 11 then 30
  else 31

/-- Layout `"2006-01-02"` rendering (Go `Format`), as characters. -/
def fmtYMDChars (y m d : Nat) : List Char :=
  pad4 y ++ '-' :: pad2 m ++ '-' :: pad2 d

/-- Layout `"02-01-2006"` rendering (Go `Format`), as characters. -/
def fmtDMYChars (y m d : Nat) : List Char :=
  pad2 d ++ '-' :: pad2 m ++ '-' :: pad4 y

/-- Layout `"2006-01-02"` rendering as a string. -/
def fmtYMD (y m d : Nat) : String := String.mk (fmtYMDChars y m d)

/-- Layout `"02-01-2006"` rendering as a string (the day-file name stem). -/
def fmtDMY (y m d : Nat) : String := String.mk (fmtDMYChars y m d)

/-- Go `time.Parse("2006-01-02", ·)` on a 10-character input: fixed-width
digit fields, `-` separators, then month and day range validation
(including the per-month day count). Returns `none` exactly when Go
returns a parse error. -/
def goParseYMD (cs : List Char) : Option (Nat × Nat × Nat) :=
  match cs with
  | [y3, y2, y1, y0, s1, m1, m0, s2, d1, d0] =>
    if s1 = '-' ∧ s2 = '-' then
      match dval? y3, dval? y2, dval? y1, dval? y0,
            dval? m1, dval? m0, dval? d1, dval? d0 with
      | some a, some b, some c, some d,
        some e, some f, some g, some h =>
        let y := a * 1000 + b * 100 + c * 10 + d
        let mo := e * 10 + f
        let da := g * 10 + h
        if 1 ≤ mo ∧ mo ≤ 12 ∧ 1 ≤ da ∧ da ≤ daysInMonth y mo then
          some (y, mo, da)
        else none
      | _, _, _, _, _, _, _, _ => none
    else none
  | _ => none

/-- The date-normalization prologue of `FileLogger.GetSymbolLogs`
(file_logger.go lines 58–64): if the argument is 10 bytes with `-` at
indices 4 and 7, try to parse it as `YYYY-MM-DD` and, on success, reformat
it as `DD-MM-YYYY`; in every other case the argument is used unchanged. -/
def normalizeDate (date : String) : String :=
  let cs := date.data
  if cs.length = 10 ∧ cs.get? 4 = some '-' ∧ cs.get? 7 = some '-' then
    match goParseYMD cs with
    | some (y, mo, da) => fmtDMY y mo da
    | none => date
  else date

/-- The day-file path `filepath.Join(f.logDir, symbol, date+".log")`
consulted by `GetSymbolLogs` after normalization. -/
def logFilePath (logDir symbol date : String) : List String :=
  [logDir, symbol, normalizeDate date ++ ".log"]

lemma dval?_dchar {n : Nat} (h : n ≤ 9) : dval? (dchar n) = some n := by
  interval_cases n <;> rfl

lemma dchar_ne_dash {n : Nat} (h : n ≤ 9) : dchar n ≠ '-' := by
  interval_cases n <;> decide

lemma goParseYMD_fmtYMD (y m d : Nat) (hy : y ≤ 9999)
    (hm1 : 1 ≤ m) (hm2 : m ≤ 12) (hd1 : 1 ≤ d) (hd2 : d ≤ daysInMonth y m) :
    goParseYMD (fmtYMDChars y m d) = some (y, m, d) := by
  have hd31 : d ≤ 31 := by
    have : daysInMonth y m ≤ 31 := by
      unfold daysInMonth
      split
      · split <;> omega
      · split <;> omega
    omega
  have h1000 : y / 1000 ≤ 9 := by omega
  have h100 : y / 100 % 10 ≤ 9 := by omega
  have h10 : y / 10 % 10 ≤ 9 := by omega
  have h1 : y % 10 ≤ 9 := by omega
  have hmA : m / 10 ≤ 9 := by omega
  have hmB : m % 10 ≤ 9 := by omega
  have hdA : d / 10 ≤ 9 := by omega
  have hdB : d % 10 ≤ 9 := by omega
  have hy' : y / 1000 * 1000 + y / 100 % 10 * 100 + y / 10 % 10 * 10 + y % 10 = y := by
    omega
  have hm' : m / 10 * 10 + m % 10 = m := by omega
  have hd' : d / 10 * 10 + d % 10 = d := by omega
  simp only [fmtYMDChars, pad4, pad2, List.cons_append, List.nil_append,
    goParseYMD, dval?_dchar h1000, dval?_dchar h100, dval?_dchar h10,
    dval?_dchar h1, dval?_dchar hmA, dval?_dchar hmB, dval?_dchar hdA,
    dval?_dchar hdB, hy', hm', hd']
  exact if_pos
    (show 1 ≤ m ∧ m ≤ 12 ∧ 1 ≤ d ∧ d ≤ daysInMonth y m from ⟨hm1, hm2, hd1, hd2⟩)

/-- A `DD-MM-YYYY` spelling never triggers the conversion branch: its
character at index 4 is the low digit of the month, not `-`. -/
lemma normalizeDate_fmtDMY (y m d : Nat) :
    normalizeDate (fmtDMY y m d) = fmtDMY y m d := by
  unfold normalizeDate
  rw [if_neg]
  intro hcond
  have h4 : (fmtDMY y m d).data.get? 4 = some (dchar (m % 10)) := by
    simp [fmtDMY, fmtDMYChars, pad4, pad2]
  rw [h4] at hcond
  exact dchar_ne_dash (by omega) (Option.some_injective _ hcond.2.1)

/-- C7: `GetSymbolLogs` normalizes its day argument before lookup: for
every valid calendar date (year ≤ 9999), the `YYYY-MM-DD` spelling is
rewritten to the native `DD-MM-YYYY` spelling, the `DD-MM-YYYY` spelling is
used unchanged, and the day-file path consulted is therefore the same for
both spellings. -/
theorem normalizeDate_accepts_both_forms (y m d : Nat) (hy : y ≤ 9999)
    (hm1 : 1 ≤ m) (hm2 : m ≤ 12) (hd1 : 1 ≤ d) (hd2 : d ≤ daysInMonth y m) :
    normalizeDate (fmtYMD y m d) = fmtDMY y m d ∧
    normalizeDate (fmtDMY y m d) = fmtDMY y m d ∧
    ∀ logDir symbol,
      logFilePath logDir symbol (fmtYMD y m d)
        = logFilePath logDir symbol (fmtDMY y m d) := by
  have hymd : normalizeDate (fmtYMD y m d) = fmtDMY y m d := by
    unfold normalizeDate
    rw [if_pos]
    · rw [show (fmtYMD y m d).data = fmtYMDChars y m d from rfl,
        goParseYMD_fmtYMD y m d hy hm1 hm2 hd1 hd2]
    · refine ⟨?_, ?_, ?_⟩ <;>
        simp [fmtYMD, fmtYMDChars, pad4, pad2]
  refine ⟨hymd, normalizeDate_fmtDMY y m d, fun logDir symbol => ?_⟩
  simp [logFilePath, hymd, normalizeDate_fmtDMY]

/-- Concrete instance of C7 at 15 January 2020: "2020-01-15" and
"15-01-2020" both resolve to the day-file stem "15-01-2020". -/
theorem normalizeDate_accepts_both_forms_witness :
    normalizeDate (fmtYMD 2020 1 15) = fmtDMY 2020 1 15 ∧
    normalizeDate (fmtDMY 2020 1 15) = fmtDMY 2020 1 15 ∧
    ∀ logDir symbol,
      logFilePath logDir symbol (fmtYMD 2020 1 15)
        = logFilePath logDir symbol (fmtDMY 2020 1 15) :=
  normalizeDate_accepts_both_forms 2020 1 15 (by decide) (by decide)
    (by decide) (by decide) (by decide)

/-- C6: `GetExchangeFundingRates` for an unregistered name fails with
`ErrExchangeNotFound`; for a registered name whose source's fetch errors,
it fails with exactly that error rather than returning an empty result. -/
theorem getExchangeFundingRates_errors (exs : Exchanges) (name : String) :
    (lookupExchange exs name = none →
      getExchangeFundingRates exs name = .error .exchangeNotFound) ∧
    (∀ e, lookupExchange exs name = some (.error e) →
      getExchangeFundingRates exs name = .error e) := by
  constructor
  · intro h; simp [getExchangeFundingRates, h]
  · intro e h; simp [getExchangeFundingRates, h]

/-- Concrete instance of C6: with only "bybit" registered (and its fetch
failing), asking for "binance" yields `ErrExchangeNotFound` and asking for
"bybit" yields the fetch error itself. -/
theorem getExchangeFundingRates_errors_witness :
    getExchangeFundingRates [("bybit", .error (.fetchFailed "timeout"))] "binance"
        = .error .exchangeNotFound ∧
    getExchangeFundingRates [("bybit", .error (.fetchFailed "timeout"))] "bybit"
        = .error (.fetchFailed "timeout") :=
  ⟨(getExchangeFundingRates_errors [("bybit", .error (.fetchFailed "timeout"))]
      "binance").1 (by rfl),
   (getExchangeFundingRates_errors [("bybit", .error (.fetchFailed "timeout"))]
      "bybit").2 (.fetchFailed "timeout") (by rfl)⟩

/-! ### Timestamps and fixed-point number rendering -/

/-- A wall-clock instant as Go's `time.Now()` provides it (UTC fields;
location is irrelevant to the code under verification). -/
structure DateTime where
  year : Nat
  month : Nat
  day : Nat
  hour : Nat
  minute : Nat
  second : Nat
  deriving Repr, DecidableEq

/-- Layout `"2006-01-02 15:04:05"` rendering (the line timestamp written
by `LogFundingRates`). -/
def fmtDateTime (t : DateTime) : String :=
  String.mk (fmtYMDChars t.year t.month t.day ++
    ' ' :: pad2 t.hour ++ ':' :: pad2 t.minute ++ ':' :: pad2 t.second)

/-- The day-file name stem `time.Now().Format("02-01-2006")`. -/
def dayStem (t : DateTime) : String := fmtDMY t.year t.month t.day

/-- Decimal digits of `n`, left-padded with zeros to `width`. -/
def padNat (width n : Nat) : String :=
  let s := toString n
  String.mk (List.replicate (width - s.length) '0') ++ s

/-- `fmt`'s `%.{prec}f` on the metric fields, modelled over `ℚ`: sign,
integer part, and exactly `prec` fraction digits, rounding half away from
zero (computed on the reduced numerator/denominator so the definition is
kernel-evaluable). Exact for values representable in `prec` decimal places
— every value this development evaluates on — where no rounding occurs. -/
def formatFixed (prec : Nat) (q : ℚ) : String :=
  let den : Int := (q.den : Int)
  let scaled : Int := (q.num.natAbs : Int) * 10 ^ prec
  let n : Nat := (scaled / den + if den ≤ 2 * (scaled % den) then 1 else 0).toNat
  (if q.num < 0 then "-" else "") ++
    toString (n / 10 ^ prec) ++ "." ++ padNat prec (n % 10 ^ prec)

/-- One line written by `FileLogger.LogFundingRates` (file_logger.go line
47): a single line per observation carrying the round timestamp, the
instrument, the provider and the three `%.Nf`-formatted metrics, terminated
by a newline. -/
def rateLine (symbol ts : String) (r : FundingRate) : String :=
  "[" ++ ts ++ "] Symbol: " ++ symbol ++ ", Exchange: " ++ r.exchange ++
    ", Funding Rate: " ++ formatFixed 6 r.fundingRate ++
    ", Mark Price: " ++ formatFixed 2 r.markPrice ++
    ", Index Price: " ++ formatFixed 2 r.indexPrice ++ "\n"

/-! ### The file system

The log directory tree, the only shared state of the `FileLogger`. Paths
are lists of components. `broken` holds paths whose `os.ReadFile` fails
with an I/O error other than absence (e.g. a permission error) — needed to
separate "file not there" from "read failed". -/

/-- Outcome classes of the `os` calls the logger makes. -/
inductive IOErr where
  | notExist
  | permission
  deriving Repr, DecidableEq

/-- The modelled file-system state. -/
structure FS where
  dirs : List (List String)
  files : List (List String × String)
  broken : List (List String)
  deriving Repr, DecidableEq

/-- A file system with no directories and no files. -/
def emptyFS : FS := ⟨[], [], []⟩

/-- Content of the file at `p`, if one exists. -/
def fileContent? (fs : FS) (p : List String) : Option String :=
  (fs.files.find? (fun f => f.1 = p)).map Prod.snd

/-- `os.ReadFile`. -/
def readFile (fs : FS) (p : List String) : Except IOErr String :=
  if p ∈ fs.broken then .error .permission
  else
    match fileContent? fs p with
    | some c => .ok c
    | none => .error .notExist

/-- `os.MkdirAll` (idempotent, never fails in the model; no claim depends
on directory-creation failure). -/
def mkdirAll (fs : FS) (p : List String) : FS :=
  { fs with dirs := if p ∈ fs.dirs then fs.dirs else fs.dirs ++ [p] }

/-- One `file.WriteString` on a file opened with `O_APPEND|O_CREATE`:
append to the existing content, creating the file when absent. -/
def appendFile (fs : FS) (p : List String) (s : String) : FS :=
  if (fileContent? fs p).isSome then
    { fs with files := fs.files.map (fun f => if f.1 = p then (f.1, f.2 ++ s) else f) }
  else { fs with files := fs.files ++ [(p, s)] }

/-- `os.ReadDir`: the names of the files directly under `p`, failing when
the directory does not exist. Subdirectory entries and `os.ReadDir`'s
name-sorted order are not modelled: the scenarios under verification place
only files in instrument directories, and no claim is order-sensitive. -/
def readDir (fs : FS) (p : List String) : Except IOErr (List String) :=
  if p ∈ fs.dirs then
    .ok (fs.files.filterMap (fun f => if f.1.dropLast = p then f.1.getLast? else none))
  else .error .notExist

/-- `FileLogger.LogFundingRates` (file_logger.go lines 26–55): ensure the
instrument directory, open (create) today's day-file in append mode,
format `time.Now()` once, and append one `rateLine` per observation.
I/O failures on the write path are not modelled (no claim depends on
`LogWriteFailed`). -/
def logFundingRates (fs : FS) (logDir symbol : String)
    (rates : List FundingRate) (now : DateTime) : FS :=
  let fs1 := mkdirAll fs [logDir, symbol]
  let path := [logDir, symbol, dayStem now ++ ".log"]
  let fs2 := appendFile fs1 path ""
  let ts := fmtDateTime now
  rates.foldl (fun acc r => appendFile acc path (rateLine symbol ts r)) fs2

/-- `FileLogger.GetSymbolLogs` (file_logger.go lines 57–74): normalize the
day argument, read the day-file, and map any read failure — whatever its
cause — to `domain.ErrLogFileNotFound`. -/
def getSymbolLogs (fs : FS) (logDir symbol date : String) : Except Err String :=
  match readFile fs (logFilePath logDir symbol date) with
  | .ok content => .ok content
  | .error _ => .error .logFileNotFound

/-! ### Round-trip lemmas: what a day-file holds after `LogFundingRates` -/

/-- Splitting a character list on a separator, keeping empty pieces —
`strings.Split(s, sep)` for a one-character separator. -/
def splitOnChar (sep : Char) (cs : List Char) : List (List Char) :=
  cs.foldr
    (fun c acc =>
      if c = sep then [] :: acc
      else
        match acc with
        | [] => [[c]]
        | a :: as => (c :: a) :: as)
    [[]]

lemma broken_mkdirAll (fs : FS) (p : List String) :
    (mkdirAll fs p).broken = fs.broken := rfl

lemma broken_appendFile (fs : FS) (p : List String) (s : String) :
    (appendFile fs p s).broken = fs.broken := by
  unfold appendFile; split <;> rfl

lemma fileContent?_mkdirAll (fs : FS) (q : List String) (p : List String) :
    fileContent? (mkdirAll fs q) p = fileContent? fs p := rfl

lemma String_join_cons (s : String) (l : List String) :
    String.join (s :: l) = s ++ String.join l := by
  apply String.ext
  simp [String.join_eq, String.data_append]

private lemma assoc_update (p : List String) (s : String) :
    ∀ l : List (List String × String),
      ((l.map (fun f => if f.1 = p then (f.1, f.2 ++ s) else f)).find?
          (fun f => f.1 = p)).map Prod.snd
        = ((l.find? (fun f => f.1 = p)).map Prod.snd).map (· ++ s) := by
  intro l
  induction l with
  | nil => rfl
  | cons f t ih =>
    by_cases h : f.1 = p
    · rw [List.map_cons, if_pos h,
        List.find?_cons_of_pos _ (by simpa using h),
        List.find?_cons_of_pos _ (by simpa using h)]
      simp
    · rw [List.map_cons, if_neg h,
        List.find?_cons_of_neg _ (by simpa using h),
        List.find?_cons_of_neg _ (by simpa using h)]
      exact ih

private lemma assoc_appendNew (p : List String) (s : String) :
    ∀ l : List (List String × String),
      (l.find? (fun f => f.1 = p)).map Prod.snd = none →
      ((l ++ [(p, s)]).find? (fun f => f.1 = p)).map Prod.snd = some s := by
  intro l
  induction l with
  | nil => simp
  | cons f t ih =>
    intro h
    by_cases hf : f.1 = p
    · rw [List.find?_cons_of_pos _ (by simpa using hf)] at h
      simp at h
    · rw [List.cons_append, List.find?_cons_of_neg _ (by simpa using hf)]
      rw [List.find?_cons_of_neg _ (by simpa using hf)] at h
      exact ih h

lemma fileContent?_appendFile_self (fs : FS) (p : List String) (s : String) :
    fileContent? (appendFile fs p s) p
      = some ((fileContent? fs p).getD "" ++ s) := by
  unfold appendFile
  split
  · next hsome =>
    match hc : fileContent? fs p with
    | some c =>
      show ((fs.files.map _).find? _).map Prod.snd = _
      rw [assoc_update p s fs.files]
      unfold fileContent? at hc
      rw [hc]
      simp
    | none => rw [hc] at hsome; simp at hsome
  · next hnone =>
    have h : (fs.files.find? (fun f => f.1 = p)).map Prod.snd = none := by
      by_contra hne
      exact hnone (by
        unfold fileContent?
        cases h' : (fs.files.find? (fun f => f.1 = p)).map Prod.snd with
        | none => exact absurd h' hne
        | some c => simp)
    show ((fs.files ++ [(p, s)]).find? _).map Prod.snd = _
    rw [assoc_appendNew p s fs.files h]
    unfold fileContent?
    rw [h]
    simp

private lemma content_after_writes (symbol ts : String) (path : List String) :
    ∀ (rates : List FundingRate) (fs : FS) (c : String),
      fileContent? fs path = some c →
      fileContent?
          (rates.foldl (fun acc r => appendFile acc path (rateLine symbol ts r)) fs)
          path
        = some (c ++ String.join (rates.map (rateLine symbol ts))) := by
  intro rates
  induction rates with
  | nil =>
    intro fs c h
    rw [List.foldl_nil, h]
    simp [String.join]
  | cons r rs ih =>
    intro fs c h
    simp only [List.foldl_cons, List.map_cons, String_join_cons]
    have hstep : fileContent? (appendFile fs path (rateLine symbol ts r)) path
        = some (c ++ rateLine symbol ts r) := by
      rw [fileContent?_appendFile_self, h]; rfl
    rw [ih (appendFile fs path (rateLine symbol ts r)) (c ++ rateLine symbol ts r) hstep,
      String.append_assoc]

/-- After `LogFundingRates`, today's day-file holds its previous content
followed by one `rateLine` per observation, in order. -/
lemma logFundingRates_content (fs : FS) (logDir symbol : String)
    (rates : List FundingRate) (now : DateTime) :
    fileContent? (logFundingRates fs logDir symbol rates now)
        [logDir, symbol, dayStem now ++ ".log"]
      = some ((fileContent? fs [logDir, symbol, dayStem now ++ ".log"]).getD ""
          ++ String.join (rates.map (rateLine symbol (fmtDateTime now)))) := by
  unfold logFundingRates
  set path := [logDir, symbol, dayStem now ++ ".log"]
  have h0 : fileContent? (appendFile (mkdirAll fs [logDir, symbol]) path "") path
      = some ((fileContent? fs path).getD "") := by
    rw [fileContent?_appendFile_self, fileContent?_mkdirAll]
    simp
  exact content_after_writes symbol (fmtDateTime now) path rates _ _ h0

private lemma broken_after_writes (symbol ts : String) (path : List String) :
    ∀ (rates : List FundingRate) (fs : FS),
      (rates.foldl (fun acc r => appendFile acc path (rateLine symbol ts r)) fs).broken
        = fs.broken := by
  intro rates
  induction rates with
  | nil => intro fs; rfl
  | cons r rs ih =>
    intro fs
    rw [List.foldl_cons, ih, broken_appendFile]

lemma broken_logFundingRates (fs : FS) (logDir symbol : String)
    (rates : List FundingRate) (now : DateTime) :
    (logFundingRates fs logDir symbol rates now).broken = fs.broken := by
  unfold logFundingRates
  rw [broken_after_writes, broken_appendFile, broken_mkdirAll]

/-- The provider-and-metric fragment of a written line: `Exchange:
<provider>, Funding Rate: <metric with 6 decimal places>`. -/
def providerMetricFragment (r : FundingRate) : String :=
  "Exchange: " ++ r.exchange ++ ", Funding Rate: " ++ formatFixed 6 r.fundingRate

lemma fragment_infix_rateLine (symbol ts : String) (r : FundingRate) :
    (providerMetricFragment r).data <:+: (rateLine symbol ts r).data := by
  refine ⟨("[" ++ ts ++ "] Symbol: " ++ symbol ++ ", ").data,
    (", Mark Price: " ++ formatFixed 2 r.markPrice
      ++ ", Index Price: " ++ formatFixed 2 r.indexPrice ++ "\n").data, ?_⟩
  simp only [rateLine, providerMetricFragment, String.data_append, List.append_assoc,
    List.cons_append, List.nil_append,
    show (", Exchange: " : String).data
        = (", " : String).data ++ ("Exchange: " : String).data from rfl]

lemma rateLine_infix_join (symbol ts : String) {r : FundingRate}
    {rates : List FundingRate} (h : r ∈ rates) :
    (rateLine symbol ts r).data <:+: (String.join (rates.map (rateLine symbol ts))).data := by
  rw [String.join_eq]
  exact List.infix_of_mem_flatten
    (by simpa using List.mem_map_of_mem (fun x => (rateLine symbol ts x).data) h)

/-- C2 (amended): `LogFundingRates` appends one single-line record per
observation — `[ts] Symbol: <instrument>, Exchange: <provider>, Funding
Rate: <6 dp>, Mark Price: <2 dp>, Index Price: <2 dp>` — and
`GetSymbolLogs` for the same instrument and day returns exactly the
previous content followed by those lines, hence contains every appended
observation's provider and 6-decimal metric. -/
theorem append_then_read_single_line_records (fs : FS) (logDir symbol : String)
    (rates : List FundingRate) (now : DateTime)
    (hb : [logDir, symbol, dayStem now ++ ".log"] ∉ fs.broken) :
    ∃ c,
      getSymbolLogs (logFundingRates fs logDir symbol rates now) logDir symbol
          (dayStem now) = .ok c ∧
      c = (fileContent? fs [logDir, symbol, dayStem now ++ ".log"]).getD ""
          ++ String.join (rates.map (rateLine symbol (fmtDateTime now))) ∧
      ∀ r ∈ rates, (providerMetricFragment r).data <:+: c.data := by
  set c := (fileContent? fs [logDir, symbol, dayStem now ++ ".log"]).getD ""
      ++ String.join (rates.map (rateLine symbol (fmtDateTime now))) with hcdef
  refine ⟨c, ?_, rfl, ?_⟩
  · have hpath : logFilePath logDir symbol (dayStem now)
        = [logDir, symbol, dayStem now ++ ".log"] := by
      unfold logFilePath dayStem
      rw [normalizeDate_fmtDMY]
    unfold getSymbolLogs
    rw [hpath]
    unfold readFile
    rw [if_neg (by rw [broken_logFundingRates]; exact hb),
      logFundingRates_content]
  · intro r hr
    exact ((fragment_infix_rateLine symbol (fmtDateTime now) r).trans
        (rateLine_infix_join symbol (fmtDateTime now) hr)).trans
      ⟨((fileContent? fs [logDir, symbol, dayStem now ++ ".log"]).getD "").data, [],
        by simp [hcdef, String.data_append]⟩

/-- A concrete observation (values exactly representable at the printed
precisions, so `formatFixed` matches Go's `%.Nf` exactly). -/
def sampleRate : FundingRate :=
  { symbol := "BTCUSDT", exchange := "binance",
    fundingRate := mkRat 1 10000, markPrice := mkRat 24 100,
    indexPrice := mkRat 24 100 }

/-- A concrete collection-round instant: 2025-01-15 12:00:00. -/
def sampleNow : DateTime := ⟨2025, 1, 15, 12, 0, 0⟩

/-- Concrete instance of C2 (amended), one append into an empty tree. -/
theorem append_then_read_single_line_records_witness :
    ∃ c,
      getSymbolLogs (logFundingRates emptyFS "funding_logs" "BTCUSDT"
          [sampleRate] sampleNow) "funding_logs" "BTCUSDT" (dayStem sampleNow)
        = .ok c ∧
      c = (fileContent? emptyFS ["funding_logs", "BTCUSDT", dayStem sampleNow ++ ".log"]).getD ""
          ++ String.join ([sampleRate].map (rateLine "BTCUSDT" (fmtDateTime sampleNow))) ∧
      ∀ r ∈ [sampleRate], (providerMetricFragment r).data <:+: c.data :=
  append_then_read_single_line_records emptyFS "funding_logs" "BTCUSDT"
    [sampleRate] sampleNow (by simp [emptyFS])

/-- Modelled from the spec (§6 log line format): a round written as a
header line `[ts] Symbol: <instrument>` followed by one indented provider
line per observation. This is what claim C2 says `LogFundingRates`
produces; the writer does not produce it. -/
def sixFormatBlock (ts symbol : String) (rs : List FundingRate) : String :=
  "[" ++ ts ++ "] Symbol: " ++ symbol ++ "\n" ++
    String.join (rs.map (fun r =>
      "  Exchange: " ++ r.exchange ++ ", Funding Rate: " ++ formatFixed 6 r.fundingRate ++
        ", Mark Price: " ++ formatFixed 2 r.markPrice ++
        ", Index Price: " ++ formatFixed 2 r.indexPrice ++ "\n"))

set_option maxRecDepth 8000 in
/-- C2 counterexample: after one append, the day-file's content is the
single-line record, which is not the §6 header-plus-indented-lines block;
in particular no line of the file starts with the two-space provider
indent the claimed format requires. -/
theorem append_not_in_six_block_format :
    getSymbolLogs (logFundingRates emptyFS "funding_logs" "BTCUSDT"
        [sampleRate] sampleNow) "funding_logs" "BTCUSDT" (dayStem sampleNow)
      = .ok (rateLine "BTCUSDT" (fmtDateTime sampleNow) sampleRate) ∧
    rateLine "BTCUSDT" (fmtDateTime sampleNow) sampleRate
      ≠ sixFormatBlock (fmtDateTime sampleNow) "BTCUSDT" [sampleRate] ∧
    (splitOnChar '\n' (rateLine "BTCUSDT" (fmtDateTime sampleNow) sampleRate).data).all
        (fun l => !("  Exchange: ".data.isPrefixOf l)) = true := by
  refine ⟨by rfl, by decide, by decide⟩

/-- C5 (amended): `GetSymbolLogs` maps every failing read of the day-file
— absence and any other I/O failure alike — to `ErrLogFileNotFound`; the
cause of the failure is not distinguished. -/
theorem read_failure_always_logFileNotFound (fs : FS) (logDir symbol date : String)
    (e : IOErr) (h : readFile fs (logFilePath logDir symbol date) = .error e) :
    getSymbolLogs fs logDir symbol date = .error .logFileNotFound := by
  unfold getSymbolLogs
  rw [h]

/-- Concrete instance of C5 (amended): querying a day with no data in an
empty tree fails with `ErrLogFileNotFound`. -/
theorem read_failure_always_logFileNotFound_witness :
    getSymbolLogs emptyFS "funding_logs" "BTCUSDT" "01-01-2020"
      = .error .logFileNotFound :=
  read_failure_always_logFileNotFound emptyFS "funding_logs" "BTCUSDT"
    "01-01-2020" .notExist (by rfl)

/-- A tree where today's day-file exists but reading it fails with a
non-absence I/O error. -/
def permFS : FS :=
  { dirs := [["funding_logs", "BTCUSDT"]],
    files := [(["funding_logs", "BTCUSDT", "15-01-2025.log"], "x")],
    broken := [["funding_logs", "BTCUSDT", "15-01-2025.log"]] }

/-- C5 counterexample: a read that fails for a reason other than absence
(the file exists; the read fails with a permission-class error) still
surfaces as `ErrLogFileNotFound` — absence is not distinguished from other
read failures, contrary to the claim's second half. -/
theorem io_error_not_distinguished :
    readFile permFS (logFilePath "funding_logs" "BTCUSDT" "15-01-2025")
        = .error .permission ∧
    fileContent? permFS (logFilePath "funding_logs" "BTCUSDT" "15-01-2025")
        = some "x" ∧
    getSymbolLogs permFS "funding_logs" "BTCUSDT" "15-01-2025"
        = .error .logFileNotFound :=
  ⟨rfl, rfl, rfl⟩

/-! ### Historical reconstruction: `GetHistoricalFundingRates` -/

/-- `strings.Contains`. -/
def containsSub (s pat : List Char) : Bool :=
  (List.range (s.length + 1)).any (fun i => pat.isPrefixOf (s.drop i))

/-- The header-shape test of file_logger.go line 143:
`strings.HasPrefix(line, "[") && strings.Contains(line, "] Symbol: ")`. -/
def isHeaderLine (l : List Char) : Bool :=
  "[".data.isPrefixOf l && containsSub l "] Symbol: ".data

/-- Go `time.Parse("2006-01-02 15:04:05", ·)` on a 19-character input:
the date part as in `goParseYMD`, a space, then fixed-width zero-padded
hour, minute and second with `:` separators and range validation. -/
def goParseDateTime (cs : List Char) : Option DateTime :=
  match cs with
  | [y3, y2, y1, y0, sA, m1, m0, sB, d1, d0, sp, h1, h0, sC, n1, n0, sD, s1, s0] =>
    match goParseYMD [y3, y2, y1, y0, sA, m1, m0, sB, d1, d0] with
    | some (y, mo, da) =>
      if sp = ' ' ∧ sC = ':' ∧ sD = ':' then
        match dval? h1, dval? h0, dval? n1, dval? n0, dval? s1, dval? s0 with
        | some a, some b, some c, some d, some e, some f =>
          let hh := a * 10 + b
          let mi := c * 10 + d
          let ss := e * 10 + f
          if hh ≤ 23 ∧ mi ≤ 59 ∧ ss ≤ 59 then some ⟨y, mo, da, hh, mi, ss⟩
          else none
        | _, _, _, _, _, _ => none
      else none
    | none => none
  | _ => none

/-- Days between 1970-01-01 and the given civil date (standard
days-from-civil computation, as `time.Time` does internally). -/
def daysFromCivil (y m d : Nat) : Int :=
  let yi : Int := if m ≤ 2 then (y : Int) - 1 else (y : Int)
  let era : Int := (if 0 ≤ yi then yi else yi - 399) / 400
  let yoe : Int := yi - era * 400
  let mp : Int := ((m : Int) + 9) % 12
  let doy : Int := (153 * mp + 2) / 5 + (d : Int) - 1
  let doe : Int := yoe * 365 + yoe / 4 - yoe / 100 + doy
  era * 146097 + doe - 719468

/-- `time.Time.Unix()` of a parsed (UTC) timestamp. -/
def toUnix (t : DateTime) : Int :=
  86400 * daysFromCivil t.year t.month t.day
    + 3600 * t.hour + 60 * t.minute + t.second

/-- The timestamp-update of the header branch (file_logger.go lines
144–152): find the first `]`, and if its index exceeds 1 and the bracketed
text parses as a timestamp, produce its Unix value; otherwise produce
nothing (the current context is left in effect). -/
def headerTs? (l : List Char) : Option Int :=
  match l.findIdx? (fun c => c = ']') with
  | some endIdx =>
    if 1 < endIdx then
      match goParseDateTime ((l.drop 1).take (endIdx - 1)) with
      | some t => some (toUnix t)
      | none => none
    else none
  | none => none

/-- ASCII subset of Go's `strings.TrimSpace` (the log format contains no
other whitespace). -/
def isSpaceChar (c : Char) : Bool :=
  c = ' ' || c = '\t' || c = '\n' || c = '\r'

/-- `strings.TrimSpace`. -/
def trimSpace (cs : List Char) : List Char :=
  ((cs.dropWhile isSpaceChar).reverse.dropWhile isSpaceChar).reverse

def isDigitChar (c : Char) : Bool := '0' ≤ c && c ≤ '9'

def natOfDigits (ds : List Char) : Nat :=
  ds.foldl (fun acc c => acc * 10 + (c.toNat - 48)) 0

/-- `fmt.Sscanf(frStr, "%f", &fr)` restricted to plain decimal notation
(optional sign, digits, optional fraction): the only shapes the log format
produces. On a scan error `fr` keeps its zero value — and the code appends
the point anyway. -/
def sscanfFloat (cs : List Char) : ℚ :=
  let signAndRest : Bool × List Char :=
    match cs with
    | '-' :: rest => (true, rest)
    | '+' :: rest => (false, rest)
    | _ => (false, cs)
  let ip := signAndRest.2.takeWhile isDigitChar
  let rest := signAndRest.2.dropWhile isDigitChar
  let fp :=
    match rest with
    | '.' :: r => r.takeWhile isDigitChar
    | _ => []
  if ip.isEmpty && fp.isEmpty then 0
  else
    let v : ℚ := mkRat (natOfDigits ip * 10 ^ fp.length + natOfDigits fp) (10 ^ fp.length)
    if signAndRest.1 then -v else v

/-- The provider-line branch (file_logger.go lines 154–167): split on
commas; every trimmed part with prefix `Funding Rate: ` contributes one
`FundingRateHistory` carrying the current timestamp context. -/
def linePoints (ts : Int) (l : List Char) : List FundingRateHistory :=
  (splitOnChar ',' l).filterMap (fun part =>
    let p := trimSpace part
    if "Funding Rate: ".data.isPrefixOf p then
      some ⟨ts, sscanfFloat (p.drop "Funding Rate: ".data.length)⟩
    else none)

/-- The per-file parse loop of `GetHistoricalFundingRates` (file_logger.go
lines 140–169): `currentTimestamp` starts at the int64 zero value and is
threaded through the lines; header-shaped lines only update it, other
lines mentioning `Exchange: <exchange>,` emit points. -/
def parseFileLines (exchange : String) : Int → List (List Char) → List FundingRateHistory
  | _, [] => []
  | ts, l :: ls =>
    if isHeaderLine l then
      parseFileLines exchange
        (match headerTs? l with
         | some t => t
         | none => ts) ls
    else if containsSub l ("Exchange: " ++ exchange ++ ",").data then
      linePoints ts l ++ parseFileLines exchange ts ls
    else parseFileLines exchange ts ls

/-- `FileLogger.GetHistoricalFundingRates` (file_logger.go lines 124–172):
read the instrument directory (propagating its error), then fold over the
`.log` files, skipping unreadable ones, concatenating each file's parsed
points with the timestamp context reset per file. -/
def getHistoricalFundingRates (fs : FS) (logDir symbol exchange : String) :
    Except IOErr (List FundingRateHistory) :=
  match readDir fs [logDir, symbol] with
  | .error e => .error e
  | .ok names =>
    .ok (names.foldl
      (fun h name =>
        if ".log".data.isSuffixOf name.data then
          match readFile fs [logDir, symbol, name] with
          | .error _ => h
          | .ok content => h ++ parseFileLines exchange 0 (splitOnChar '\n' content.data)
        else h)
      [])

/-- C4 counterexample: reconstructing history for an instrument whose
directory does not exist returns the `os.ReadDir` error, not the empty
sequence the claim promises. -/
theorem reconstruct_missing_dir_counterexample :
    getHistoricalFundingRates emptyFS "funding_logs" "BTCUSDT" "binance"
        = .error .notExist ∧
    getHistoricalFundingRates emptyFS "funding_logs" "BTCUSDT" "binance"
        ≠ .ok [] := by
  refine ⟨rfl, ?_⟩
  intro h
  rw [show getHistoricalFundingRates emptyFS "funding_logs" "BTCUSDT" "binance"
      = .error .notExist from rfl] at h
  exact Except.noConfusion h

/-- C4 (amended): when the instrument directory does not exist,
`GetHistoricalFundingRates` fails with the directory-read error (a nil
history and a non-nil error), rather than returning an empty sequence. -/
theorem reconstruct_missing_dir_propagates_error (fs : FS)
    (logDir symbol exchange : String) (h : [logDir, symbol] ∉ fs.dirs) :
    getHistoricalFundingRates fs logDir symbol exchange = .error .notExist := by
  unfold getHistoricalFundingRates readDir
  rw [if_neg h]

/-- Concrete instance of C4 (amended) on the empty tree. -/
theorem reconstruct_missing_dir_propagates_error_witness :
    getHistoricalFundingRates emptyFS "logs" "ETHUSDT" "bybit"
      = .error .notExist :=
  reconstruct_missing_dir_propagates_error emptyFS "logs" "ETHUSDT" "bybit"
    (by simp [emptyFS])

set_option maxRecDepth 16000 in
/-- C1: every line `LogFundingRates` writes starts with `[` and contains
`] Symbol: `, so the reconstruction parser consumes it as a
timestamp-context line and never as a provider line. Consequently, after
an append whose observations include provider "binance" (the written
content does contain `Exchange: binance,`), `GetHistoricalFundingRates`
returns zero HistoryPoints instead of the one per append the claim — and
the code's own purpose — requires. -/
theorem written_lines_parse_as_headers_only :
    isHeaderLine (rateLine "BTCUSDT" (fmtDateTime sampleNow) sampleRate).data = true ∧
    containsSub (rateLine "BTCUSDT" (fmtDateTime sampleNow) sampleRate).data
        ("Exchange: binance,".data) = true ∧
    getHistoricalFundingRates
        (logFundingRates emptyFS "funding_logs" "BTCUSDT" [sampleRate] sampleNow)
        "funding_logs" "BTCUSDT" "binance"
      = .ok [] := by
  refine ⟨by decide, by decide, by rfl⟩

/-! ### C10: the timestamp-context discipline of the parser -/

/-- One step of the timestamp context: a header-shaped line installs its
parsed timestamp, a header-shaped line that fails to parse leaves the
context, any other line leaves the context. -/
def ctxStep (ts : Int) (l : List Char) : Int :=
  if isHeaderLine l then
    match headerTs? l with
    | some t => t
    | none => ts
  else ts

/-- The claim-shaped context: the parsed timestamp of the most recent
header-shaped line whose bracketed timestamp parses, or 0 (the int64 zero
value of `currentTimestamp`) when no such line has been seen. -/
def lastHeaderTs (seen : List (List Char)) : Int :=
  match seen.reverse.find? (fun l => isHeaderLine l && (headerTs? l).isSome) with
  | some l => (headerTs? l).getD 0
  | none => 0

/-- Claim-shaped restatement of the per-file parse: each non-header line
matching the requested provider contributes its points with the timestamp
context determined by the lines seen before it. -/
def historySpec (exchange : String) (seen : List (List Char)) :
    List (List Char) → List FundingRateHistory
  | [] => []
  | l :: ls =>
    (if ¬ isHeaderLine l ∧ containsSub l ("Exchange: " ++ exchange ++ ",").data
     then linePoints (lastHeaderTs seen) l
     else []) ++ historySpec exchange (seen ++ [l]) ls

lemma lastHeaderTs_append (seen : List (List Char)) (l : List Char) :
    lastHeaderTs (seen ++ [l]) = ctxStep (lastHeaderTs seen) l := by
  unfold lastHeaderTs ctxStep
  rw [List.reverse_append]
  by_cases hh : isHeaderLine l = true
  · cases hts : headerTs? l with
    | some t =>
      rw [show [l].reverse ++ seen.reverse = l :: seen.reverse by simp,
        List.find?_cons_of_pos _ (by simp [hh, hts])]
      simp [hh, hts]
    | none =>
      rw [show [l].reverse ++ seen.reverse = l :: seen.reverse by simp,
        List.find?_cons_of_neg _ (by simp [hh, hts])]
      simp [hh, hts]
  · rw [show [l].reverse ++ seen.reverse = l :: seen.reverse by simp,
      List.find?_cons_of_neg _ (by simp [hh])]
    simp [hh]

private lemma parseFileLines_eq_spec_aux (exchange : String) :
    ∀ (ls seen : List (List Char)),
      parseFileLines exchange (lastHeaderTs seen) ls = historySpec exchange seen ls := by
  intro ls
  induction ls with
  | nil => intro seen; rfl
  | cons l t ih =>
    intro seen
    by_cases hh : isHeaderLine l = true
    · have hctx : (match headerTs? l with
          | some t' => t'
          | none => lastHeaderTs seen) = lastHeaderTs (seen ++ [l]) := by
        rw [lastHeaderTs_append]
        unfold ctxStep
        rw [if_pos hh]
      rw [parseFileLines, if_pos hh, hctx, ih (seen ++ [l]), historySpec,
        if_neg (by simp [hh])]
      simp
    · have hctx : lastHeaderTs (seen ++ [l]) = lastHeaderTs seen := by
        rw [lastHeaderTs_append]
        unfold ctxStep
        rw [if_neg hh]
      have hrec := ih (seen ++ [l])
      rw [hctx] at hrec
      by_cases hp : containsSub l ("Exchange: " ++ exchange ++ ",").data = true
      · rw [parseFileLines, if_neg hh, if_pos hp, historySpec,
          if_pos ⟨hh, hp⟩, hrec]
      · rw [parseFileLines, if_neg hh, if_neg hp, historySpec,
          if_neg (fun hand => hp hand.2), hrec]
        simp

/-- C10: in the per-file parse of `GetHistoricalFundingRates` (the context
`currentTimestamp` starts at the int64 zero value 0 for each file), every
emitted HistoryPoint carries the timestamp of the most recent earlier
header-shaped line whose bracketed timestamp parsed successfully — 0 when
no such line precedes, and a header-shaped line with an unparseable
timestamp leaves the previous context in effect. -/
theorem reconstruct_timestamp_context (exchange : String) (lines : List (List Char)) :
    parseFileLines exchange 0 lines = historySpec exchange [] lines :=
  parseFileLines_eq_spec_aux exchange lines []

/-! ### Enumeration: `GetAllLogs` -/

/-- One entry `filepath.Walk` hands to the callback: the path relative to
the log root, whether it is a directory, and the metadata size (Go's
`info.Size()`, the byte length of the content for files). -/
structure WalkEntry where
  rel : List String
  isDir : Bool
  size : Int
  deriving Repr, DecidableEq

/-- The walk entry a created directory contributes (size of directories
is never read by the callback; 0 here). -/
def walkDirEntry? (logDir : String) (p : List String) : Option WalkEntry :=
  match p with
  | d :: rest => if d = logDir ∧ rest ≠ [] then some ⟨rest, true, 0⟩ else none
  | [] => none

/-- The walk entry a file contributes; its size is the content's byte
length (all content is ASCII, so characters = bytes). -/
def walkFileEntry? (logDir : String) (f : List String × String) : Option WalkEntry :=
  match f.1 with
  | d :: rest =>
    if d = logDir ∧ rest ≠ [] then some ⟨rest, false, (f.2.length : Int)⟩ else none
  | [] => none

/-- What `filepath.Walk(f.logDir, ...)` visits, the root itself excluded
(the callback skips `path == f.logDir`): every directory and every file
under the root. Walk's lexical order is not modelled; no claim is
order-sensitive. -/
def walkEntries (fs : FS) (logDir : String) : List WalkEntry :=
  fs.dirs.filterMap (walkDirEntry? logDir)
    ++ fs.files.filterMap (walkFileEntry? logDir)

/-- `filepath.Ext(path) == ".log"`: since `.log` has its only dot four
characters from the end, the extension is `.log` exactly when the final
path component ends in `.log`. -/
def extIsLog (rel : List String) : Bool :=
  match rel.getLast? with
  | some n => ".log".data.isSuffixOf n.data
  | none => false

/-- `strings.TrimSuffix(name, ".log")`. -/
def trimSuffixLog (n : String) : String :=
  if ".log".data.isSuffixOf n.data then String.mk (n.data.take (n.data.length - 4))
  else n

/-- `FileLogger.GetAllLogs` (file_logger.go lines 76–122): walk the tree;
for every non-directory `.log` entry whose relative path has exactly two
components `symbol/date.log`, append a descriptor carrying the symbol, the
date (name without `.log`), the relative path and the metadata size. -/
def getAllLogs (fs : FS) (logDir : String) : List LogFile :=
  (walkEntries fs logDir).foldl
    (fun acc e =>
      if e.isDir = false ∧ extIsLog e.rel = true then
        if e.rel.length = 2 then
          acc ++ [{ symbol := e.rel.headD "",
                    date := trimSuffixLog (e.rel.getLast?.getD ""),
                    path := e.rel, size := e.size }]
        else acc
      else acc)
    []

/-- The day-file test of claim C8: a non-directory entry at depth
`instrument/day` whose name ends in `.log`. -/
def isDayFileEntry (e : WalkEntry) : Bool :=
  !e.isDir && extIsLog e.rel && e.rel.length == 2

/-- The descriptor a day-file entry yields. -/
def entryDescriptor (e : WalkEntry) : LogFile :=
  { symbol := e.rel.headD "", date := trimSuffixLog (e.rel.getLast?.getD ""),
    path := e.rel, size := e.size }

/-- The depth-2 `.log` files of the tree, as walk entries. -/
def dayFileEntry? (logDir : String) (f : List String × String) : Option WalkEntry :=
  match f.1 with
  | [d, sym, name] =>
    if d = logDir ∧ ".log".data.isSuffixOf name.data then
      some ⟨[sym, name], false, (f.2.length : Int)⟩
    else none
  | _ => none

private lemma getAllLogs_foldl :
    ∀ (es : List WalkEntry) (acc : List LogFile),
      (es.foldl
        (fun acc e =>
          if e.isDir = false ∧ extIsLog e.rel = true then
            if e.rel.length = 2 then
              acc ++ [{ symbol := e.rel.headD "",
                        date := trimSuffixLog (e.rel.getLast?.getD ""),
                        path := e.rel, size := e.size }]
            else acc
          else acc)
        acc)
      = acc ++ (es.filter isDayFileEntry).map entryDescriptor := by
  intro es
  induction es with
  | nil => intro acc; simp
  | cons e t ih =>
    intro acc
    rw [List.foldl_cons]
    by_cases h1 : e.isDir = false ∧ extIsLog e.rel = true
    · by_cases h2 : e.rel.length = 2
      · rw [if_pos h1, if_pos h2, ih]
        have hday : isDayFileEntry e = true := by
          unfold isDayFileEntry
          simp [h1.1, h1.2, h2]
        rw [List.filter_cons_of_pos hday]
        simp [entryDescriptor]
      · rw [if_pos h1, if_neg h2, ih]
        have hday : isDayFileEntry e = false := by
          unfold isDayFileEntry
          simp [h2]
        rw [List.filter_cons_of_neg (by simp [hday])]
    · rw [if_neg h1, ih]
      have hday : isDayFileEntry e = false := by
        unfold isDayFileEntry
        rcases not_and_or.mp h1 with h | h
        · have hb : e.isDir = true := by
            cases hb2 : e.isDir
            · exact absurd hb2 h
            · rfl
          simp [hb]
        · have hb : extIsLog e.rel = false := by
            cases hb2 : extIsLog e.rel
            · rfl
            · exact absurd hb2 h
          simp [hb]
      rw [List.filter_cons_of_neg (by simp [hday])]

private lemma dirs_no_descriptors (logDir : String) :
    ∀ ds : List (List String),
      (ds.filterMap (walkDirEntry? logDir)).filter isDayFileEntry = [] := by
  intro ds
  induction ds with
  | nil => rfl
  | cons p t ih =>
    cases hp : walkDirEntry? logDir p with
    | none => rw [List.filterMap_cons_none hp]; exact ih
    | some e =>
      have hdir : e.isDir = true := by
        cases p with
        | nil => exact absurd hp (by simp [walkDirEntry?])
        | cons d rest =>
          unfold walkDirEntry? at hp
          dsimp only at hp
          by_cases hc : d = logDir ∧ rest ≠ []
          · rw [if_pos hc] at hp
            cases hp
            rfl
          · rw [if_neg hc] at hp
            cases hp
      rw [List.filterMap_cons_some hp,
        List.filter_cons_of_neg (by simp [isDayFileEntry, hdir]), ih]

private lemma files_day_descriptors (logDir : String) :
    ∀ l : List (List String × String),
      (l.filterMap (walkFileEntry? logDir)).filter isDayFileEntry
        = l.filterMap (dayFileEntry? logDir) := by
  intro l
  induction l with
  | nil => rfl
  | cons f t ih =>
    obtain ⟨p, c⟩ := f
    match p with
    | [] =>
      rw [List.filterMap_cons_none (show walkFileEntry? logDir ([], c) = none from rfl),
        List.filterMap_cons_none (show dayFileEntry? logDir ([], c) = none from rfl)]
      exact ih
    | [d] =>
      rw [List.filterMap_cons_none (show walkFileEntry? logDir ([d], c) = none by
          unfold walkFileEntry?
          dsimp only
          rw [if_neg (by simp)]),
        List.filterMap_cons_none (show dayFileEntry? logDir ([d], c) = none from rfl)]
      exact ih
    | [d, a] =>
      by_cases hd : d = logDir
      · rw [List.filterMap_cons_some (show walkFileEntry? logDir ([d, a], c)
            = some ⟨[a], false, (c.length : Int)⟩ by
            unfold walkFileEntry?
            dsimp only
            rw [if_pos ⟨hd, by simp⟩]),
          List.filterMap_cons_none (show dayFileEntry? logDir ([d, a], c) = none from rfl),
          List.filter_cons_of_neg (by simp [isDayFileEntry])]
        exact ih
      · rw [List.filterMap_cons_none (show walkFileEntry? logDir ([d, a], c) = none by
            unfold walkFileEntry?
            dsimp only
            rw [if_neg (fun hand => hd hand.1)]),
          List.filterMap_cons_none (show dayFileEntry? logDir ([d, a], c) = none from rfl)]
        exact ih
    | [d, a, b] =>
      by_cases hd : d = logDir
      · by_cases hlog : ".log".data.isSuffixOf b.data = true
        · rw [List.filterMap_cons_some (show walkFileEntry? logDir ([d, a, b], c)
              = some ⟨[a, b], false, (c.length : Int)⟩ by
              unfold walkFileEntry?
              dsimp only
              rw [if_pos ⟨hd, by simp⟩]),
            List.filterMap_cons_some (show dayFileEntry? logDir ([d, a, b], c)
              = some ⟨[a, b], false, (c.length : Int)⟩ by
              unfold dayFileEntry?
              dsimp only
              rw [if_pos ⟨hd, hlog⟩]),
            List.filter_cons_of_pos (by simp [isDayFileEntry, extIsLog, hlog]), ih]
        · rw [List.filterMap_cons_some (show walkFileEntry? logDir ([d, a, b], c)
              = some ⟨[a, b], false, (c.length : Int)⟩ by
              unfold walkFileEntry?
              dsimp only
              rw [if_pos ⟨hd, by simp⟩]),
            List.filterMap_cons_none (show dayFileEntry? logDir ([d, a, b], c) = none by
              unfold dayFileEntry?
              dsimp only
              rw [if_neg (fun hand => hlog hand.2)]),
            List.filter_cons_of_neg (by simp [isDayFileEntry, extIsLog, hlog])]
          exact ih
      · rw [List.filterMap_cons_none (show walkFileEntry? logDir ([d, a, b], c) = none by
            unfold walkFileEntry?
            dsimp only
            rw [if_neg (fun hand => hd hand.1)]),
          List.filterMap_cons_none (show dayFileEntry? logDir ([d, a, b], c) = none by
            unfold dayFileEntry?
            dsimp only
            rw [if_neg (fun hand => hd hand.1)])]
        exact ih
    | d :: a :: b :: x :: xs =>
      by_cases hd : d = logDir
      · rw [List.filterMap_cons_some (show walkFileEntry? logDir (d :: a :: b :: x :: xs, c)
            = some ⟨a :: b :: x :: xs, false, (c.length : Int)⟩ by
            unfold walkFileEntry?
            dsimp only
            rw [if_pos ⟨hd, by simp⟩]),
          List.filterMap_cons_none
            (show dayFileEntry? logDir (d :: a :: b :: x :: xs, c) = none from rfl),
          List.filter_cons_of_neg (by simp [isDayFileEntry])]
        exact ih
      · rw [List.filterMap_cons_none (show walkFileEntry? logDir (d :: a :: b :: x :: xs, c)
            = none by
            unfold walkFileEntry?
            dsimp only
            rw [if_neg (fun hand => hd hand.1)]),
          List.filterMap_cons_none
            (show dayFileEntry? logDir (d :: a :: b :: x :: xs, c) = none from rfl)]
        exact ih

/-- C8: `GetAllLogs` returns exactly one descriptor per depth-2 `.log`
file under the root — directories and entries at other depths or with
other extensions contribute nothing — and each descriptor carries the
instrument (first path component), the day (file name without `.log`) and
the metadata byte size, with no file content consulted. -/
theorem getAllLogs_one_descriptor_per_day_file (fs : FS) (logDir : String) :
    getAllLogs fs logDir
        = (fs.files.filterMap (dayFileEntry? logDir)).map entryDescriptor ∧
    (getAllLogs fs logDir).length
        = (fs.files.filterMap (dayFileEntry? logDir)).length := by
  have hmain : getAllLogs fs logDir
      = (fs.files.filterMap (dayFileEntry? logDir)).map entryDescriptor := by
    unfold getAllLogs
    rw [getAllLogs_foldl (walkEntries fs logDir) []]
    unfold walkEntries
    rw [List.filter_append, dirs_no_descriptors, files_day_descriptors]
    simp
  exact ⟨hmain, by rw [hmain, List.length_map]⟩

/-! ### The periodic scheduler: `startBackgroundLogging`

`startBackgroundLogging` (main_clean.go lines 114–133) is the single
goroutine that triggers collection rounds: an endless `for { select { case
<-ticker.C: useCase.LogAllFundingRates() } }` loop. `LogAllFundingRates`
has no other caller in the program. The loop is embedded as a transition
system: the goroutine is either blocked on the ticker receive
(`waitTick`) or executing `LogAllFundingRates` (`inRound`); `time.Ticker`'s
channel has capacity one, so at most one tick is buffered and further
ticks are dropped while one is pending; `active` counts the
`LogAllFundingRates` invocations currently executing. Because the loop
calls the round synchronously, a round can only start from `waitTick`. -/

/-- Position of the scheduler goroutine inside its loop body. -/
inductive SchedPC where
  | waitTick
  | inRound
  deriving Repr, DecidableEq

/-- State of the scheduler system. -/
structure SchedState where
  pc : SchedPC
  tickBuffered : Bool
  active : Nat
  deriving Repr, DecidableEq

/-- Before the first tick: blocked on the receive, nothing buffered, no
round running. -/
def schedInit : SchedState := ⟨.waitTick, false, 0⟩

/-- The atomic events of the loop: a ticker tick arrives (dropped when one
is already buffered — same resulting state), the goroutine receives a
buffered tick and enters `LogAllFundingRates`, or the call returns and the
loop iterates back to the receive. -/
inductive SchedStep : SchedState → SchedState → Prop where
  | tick (s : SchedState) :
      SchedStep s { s with tickBuffered := true }
  | startRound (s : SchedState) (hpc : s.pc = .waitTick) (ht : s.tickBuffered = true) :
      SchedStep s { pc := .inRound, tickBuffered := false, active := s.active + 1 }
  | finishRound (s : SchedState) (hpc : s.pc = .inRound) :
      SchedStep s { s with pc := .waitTick, active := s.active - 1 }

/-- States reachable from `schedInit` by scheduler events. -/
inductive SchedReachable : SchedState → Prop where
  | init : SchedReachable schedInit
  | step {s s' : SchedState} : SchedReachable s → SchedStep s s' → SchedReachable s'

private lemma sched_invariant {s : SchedState} (h : SchedReachable s) :
    s.active = (if s.pc = .inRound then 1 else 0) := by
  induction h with
  | init => rfl
  | step _ hstep ih =>
    cases hstep with
    | tick => simpa using ih
    | startRound hpc ht =>
      rw [hpc] at ih
      simp at ih
      simp [ih]
    | finishRound hpc =>
      rw [hpc] at ih
      simp at ih
      simp [ih]

/-- C9: in every reachable state of the scheduler at most one collection
round (one `LogAllFundingRates` invocation) is active — a tick that
arrives while a round is running is buffered or dropped, never the start
of an overlapping round — so two rounds never run (and hence never write a
day-file) concurrently. -/
theorem at_most_one_round_active (s : SchedState) (h : SchedReachable s) :
    s.active ≤ 1 := by
  rw [sched_invariant h]
  split <;> omega

/-- Concrete instance of C9: after a tick, a round start, a tick during
the round, and the round's finish, at most one round was ever active. -/
theorem at_most_one_round_active_witness :
    SchedReachable ⟨.inRound, true, 1⟩ ∧ (⟨.inRound, true, 1⟩ : SchedState).active ≤ 1 :=
  ⟨.step (.step (.step .init (.tick schedInit))
      (.startRound ⟨.waitTick, true, 0⟩ rfl rfl))
      (.tick ⟨.inRound, false, 1⟩),
   at_most_one_round_active ⟨.inRound, true, 1⟩
     (.step (.step (.step .init (.tick schedInit))
       (.startRound ⟨.waitTick, true, 0⟩ rfl rfl))
       (.tick ⟨.inRound, false, 1⟩))⟩

end FundingMonitor
